import Mathlib

/-!
Shallow embedding of the core of the `content-loader` repository
(`src/content_loader/`), covering the data model, the document chunker
(`services/document_processor.py`), the retry handler and batcher
(`core/base.py`), and the loader orchestrator (`core/executor.py`).

Conventions used throughout:
* Python `str` values that are inspected character by character
  (document text) are embedded as `List Char`; identifiers that are only
  compared or concatenated stay `String`.
* Python `str.isspace` / `str.strip` are embedded through
  `Char.isWhitespace` (the relevant whitespace characters of the inputs
  under consideration agree between the two).
* Fallible code returns `Except`; an executor's behaviour during one run
  (the stream of documents it yields and whether it raises afterwards) is
  an explicit `ExecOutcome` value, since the real stream is external I/O.
* Rates and backoff delays are embedded as `Rat` (the Python floats
  involved are exact binary fractions in every computation modelled here).
-/

/-- Embeds `SourceType` from `core/models/base.py`. -/
inductive SourceType where
  | slack
  | github
  | confluence
deriving DecidableEq

/-- Embeds the `.value` payload of the `SourceType` enum. -/
def SourceType.value : SourceType → String
  | .slack => "slack"
  | .github => "github"
  | .confluence => "confluence"

/-- Embeds `ContentType` from `core/models/base.py`. -/
inductive ContentType where
  | sourceCode
  | documentation
  | conversation
  | mixedContent
deriving DecidableEq

/-- Embeds `ChunkType` from `core/models/processing.py`. -/
inductive ChunkType where
  | text
  | code
  | summary
deriving DecidableEq

/-- Embeds `DocumentMetadata` from `core/models/base.py`.  Timestamps are
abstract integers; the open `extra` mapping is an association list. -/
structure DocumentMetadata where
  sourceType : SourceType
  sourceId : String
  sourceUrl : Option String := none
  contentType : Option ContentType := none
  createdAt : Option Int := none
  updatedAt : Option Int := none
  extra : List (String × String) := []
deriving DecidableEq

/-- Embeds `Document` from `core/models/base.py`.  `text` is a character
list (see module comment).  The `__post_init__` timestamp sync and the
SHA-256 `generate_hash` are not modelled: no claim under study depends on
them. -/
structure Document where
  id : String
  title : String
  text : List Char
  metadata : DocumentMetadata
  url : Option String := none
  createdAt : Option Int := none
  updatedAt : Option Int := none
deriving DecidableEq

/-- Embeds `ProcessedChunk` from `core/models/processing.py`.  The
`content_hash` field (SHA-256, computed in `__post_init__`) is not
modelled: no claim under study depends on it. -/
structure ProcessedChunk where
  id : String
  text : List Char
  chunkType : ChunkType
  chunkIndex : Nat
  documentId : String
  sourceMetadata : DocumentMetadata
  startLine : Option Nat := none
  endLine : Option Nat := none
  nodeType : Option String := none
deriving DecidableEq

/-! ## Document chunking (`services/document_processor.py`, `chunk_document`) -/

/-- Index of the last occurrence of the space character in a character
list; embeds Python `chunk_text.rfind(" ")`, with `none` for the `-1`
"not found" result. -/
def lastSpaceIdx : List Char → Option Nat
  | [] => none
  | ch :: rest =>
    match lastSpaceIdx rest with
    | some j => some (j + 1)
    | none => if ch = ' ' then some 0 else none

/-- Embeds Python `str.strip()`: remove leading and trailing whitespace. -/
def stripChars (l : List Char) : List Char :=
  ((l.dropWhile Char.isWhitespace).reverse.dropWhile Char.isWhitespace).reverse

/-- Whether the first character of the list is whitespace (`False` for the
empty list); embeds `text[i + chunk_size].isspace()` on the text remaining
after the current slice. -/
def headIsSpace : List Char → Bool
  | [] => false
  | ch :: _ => ch.isWhitespace

/-- The body of one iteration of the chunking loop in `chunk_document`
(lines 47-57): take the slice `text[i : i + chunk_size]` and apply the
word-boundary heuristic.  `text` here is the text remaining from offset
`i`, so the slice is `text.take c` and `text[i + chunk_size]` is the head
of `text.drop c`.  Returns the `chunk_text` value before `.strip()`. -/
def cutText (c : Nat) (text : List Char) : List Char :=
  let slice := text.take c
  let rest := text.drop c
  -- `if i + chunk_size < len(text) and not text[i + chunk_size].isspace():`
  if !rest.isEmpty && !headIsSpace rest then
    match lastSpaceIdx slice with
    | some j =>
      -- `if last_space > chunk_size * 0.5:` — for integers `j` this is
      -- exactly `2 * j > c`.
      if 2 * j > c then slice.take j else slice
    | none => slice
  else slice

/-- The chunking loop `for i in range(0, len(text), chunk_size)` of
`chunk_document`, producing the successive `chunk_text` values (before
`.strip()`).  The loop advances by the fixed stride `chunk_size`, so it is
embedded as recursion on the text remaining past the current offset.
`fuel` is a bound on the number of iterations used only to make the
recursion structural; `text.length` always suffices when `0 < c`. -/
def chunkTextsAux (c : Nat) : Nat → List Char → List (List Char)
  | 0, _ => []
  | fuel + 1, text =>
    if text = [] then []
    else cutText c text :: chunkTextsAux c fuel (text.drop c)

/-- The successive `chunk_text` values produced by `chunk_document` on
`text` with chunk size `c` (before `.strip()`).  For `c = 0` the Python
`range(0, len(text), 0)` raises `ValueError`; that case is out of the
domain and mapped to `[]`. -/
def chunkTexts (c : Nat) (text : List Char) : List (List Char) :=
  if c = 0 then [] else chunkTextsAux c text.length text

/-- Builds the `ProcessedChunk` records appended by the chunking loop
(lines 59-67 of `document_processor.py`): `.strip()` is applied to the
chunk text, and `len(chunks)` at append time — the running index `idx` —
becomes `chunk_index` and the id suffix. -/
def buildChunks (document : Document) : Nat → List (List Char) → List ProcessedChunk
  | _, [] => []
  | idx, t :: ts =>
    { id := document.id ++ "_chunk_" ++ toString idx
      text := stripChars t
      chunkType := ChunkType.text
      chunkIndex := idx
      documentId := document.id
      sourceMetadata := document.metadata } :: buildChunks document (idx + 1) ts

/-- Embeds `DocumentProcessor.chunk_document`. -/
def chunk_document (document : Document) (chunk_size : Nat) : List ProcessedChunk :=
  -- `if not text: return []`
  if document.text = [] then []
  else buildChunks document 0 (chunkTexts chunk_size document.text)

/-- A character list with no leading and no trailing whitespace — the
shape `str.strip()` guarantees. -/
def TrimmedChars (l : List Char) : Prop :=
  (∀ ch, l.head? = some ch → ch.isWhitespace = false) ∧
  (∀ ch, l.getLast? = some ch → ch.isWhitespace = false)

/-! ## Retry handler (`core/base.py`, `SimpleRetryHandler.execute_with_retry`) -/

/-- Classification of the exception one invocation of the stream factory
raises.  The first three constructors are the classes named in the
`except (ConnectionError, TimeoutError, OSError)` clause; `other` is any
exception outside that tuple. -/
inductive StreamError where
  | connectionError
  | timeoutError
  | osError
  | other
deriving DecidableEq

/-- Whether the error is caught by the transient-error `except` clause of
`execute_with_retry`. -/
def isTransientStreamError : StreamError → Bool
  | .other => false
  | _ => true

/-- Observable behaviour of one `execute_with_retry` run: the items
relayed to the consumer (in order, across all attempts), the backoff
delays slept (in order), the exception finally propagated (`none` when the
generator completes normally), and how many times the factory was
invoked. -/
structure RetryOutcome (α : Type) where
  emitted : List α
  sleeps : List Rat
  raised : Option StreamError
  attempts : Nat
deriving DecidableEq

/-- The retry loop of `execute_with_retry` from attempt number `attempt`
with `remaining` loop iterations left (`remaining = max_retries -
attempt`).  The factory is embedded as a function from the attempt number
to the items that invocation yields before it completes or fails, paired
with the error it raises (`none` = ran to completion).  The test
`attempt < max_retries - 1` is exactly `remaining ≠ 1`, i.e. `0 <
remaining - 1`, here `¬(remaining' = 0)` for `remaining = remaining' + 1`. -/
def retryFrom (factory : Nat → List α × Option StreamError) (baseDelay : Rat) :
    Nat → Nat → RetryOutcome α
  | _, 0 => ⟨[], [], none, 0⟩
  | attempt, remaining + 1 =>
    match (factory attempt).2 with
    | none => ⟨(factory attempt).1, [], none, 1⟩
    | some e =>
      if isTransientStreamError e then
        if remaining = 0 then
          -- last attempt: `raise`
          ⟨(factory attempt).1, [], some e, 1⟩
        else
          -- `delay = self.base_delay * (2**attempt); await asyncio.sleep(delay)`
          let rest := retryFrom factory baseDelay (attempt + 1) remaining
          ⟨(factory attempt).1 ++ rest.emitted,
            baseDelay * 2 ^ attempt :: rest.sleeps,
            rest.raised,
            rest.attempts + 1⟩
      else
        -- `except Exception: raise` — non-transient errors are not retried
        ⟨(factory attempt).1, [], some e, 1⟩

/-- Embeds `SimpleRetryHandler.execute_with_retry` with the handler's
`max_retries` and `base_delay` parameters. -/
def execute_with_retry (maxRetries : Nat) (baseDelay : Rat)
    (factory : Nat → List α × Option StreamError) : RetryOutcome α :=
  retryFrom factory baseDelay 0 maxRetries

/-! ## Batcher (`core/base.py`, `SimpleMemoryManager.process_batch`) -/

/-- The accumulation loop of `process_batch`: `batch` is the list built so
far, yielded whenever its length reaches the effective batch size, with a
final non-empty remainder yielded after the stream ends. -/
def processBatchLoop (b : Nat) : List Document → List Document → List (List Document)
  | batch, [] => if batch = [] then [] else [batch]
  | batch, d :: rest =>
    let batch2 := batch ++ [d]
    if batch2.length ≥ b then batch2 :: processBatchLoop b [] rest
    else processBatchLoop b batch2 rest

/-- `effective_batch_size = batch_size or self.batch_size`: a `None` — or
falsy `0` — override falls back to the instance batch size. -/
def effectiveBatchSize (selfBatchSize : Nat) (override : Option Nat) : Nat :=
  match override with
  | none => selfBatchSize
  | some n => if n = 0 then selfBatchSize else n

/-- Embeds `SimpleMemoryManager.process_batch` (the `gc.collect()` hint
has no observable effect on the yielded batches). -/
def process_batch (selfBatchSize : Nat) (override : Option Nat)
    (stream : List Document) : List (List Document) :=
  processBatchLoop (effectiveBatchSize selfBatchSize override) [] stream

/-! ## Orchestrator (`core/executor.py`, `LoaderExecutor`) -/

/-- What the exception raised by one executor run looks like from
`run_single_loader`: `type(e).__name__` and `str(e)`. -/
structure ExecutorFailure where
  errorType : String := ""
  message : String := ""
deriving DecidableEq

/-- Behaviour of one registered executor's `execute()` stream during a
run: the documents it yields, and the exception (if any) it raises after
yielding them.  The real stream is external I/O, so a run of the
orchestrator is parameterised by one such outcome per registered key. -/
structure ExecOutcome where
  docs : List Document
  err : Option ExecutorFailure := none
deriving DecidableEq

/-- The executor registry `self.executors` together with what each
executor's stream does on the run under consideration, in registration
order (Python dicts preserve insertion order; keys are unique). -/
abbrev Registry := List (String × ExecOutcome)

/-- Dict lookup `self.executors[key]` (as an option). -/
def lookupExec (executors : Registry) (key : String) : Option ExecOutcome :=
  (executors.find? (fun kv => kv.1 = key)).map (fun kv => kv.2)

/-- The exceptions the orchestrator raises, following the class hierarchy
of `core/exceptions.py`: `ConfigurationError` extends `ContentLoaderError`
directly, while `LoaderExecutionError` and `ConcurrentExecutionError`
extend `ExecutionError` — neither is a subclass of `ConfigurationError`. -/
inductive LoaderError where
  | loaderExecutionError (loaderType sourceKey message : String)
      (errorType : Option String) (documentsProcessed : Option Nat)
  | concurrentExecutionError (failedLoaders : List String)
  | configurationError (message : String)
deriving DecidableEq

/-- `isinstance(e, ConfigurationError)` on the hierarchy of
`core/exceptions.py`: true only for the configuration branch. -/
def isConfigurationClassError : LoaderError → Bool
  | .configurationError _ => true
  | _ => false

/-- One record of `self.execution_stats[executor_key]` (lines 164-174 of
`core/executor.py`).  The wall-clock fields `start_time` and
`execution_time_seconds` are not modelled. -/
structure ExecutionStatsEntry where
  documentsProcessed : Nat
  errorsCount : Nat
  successRate : Rat
deriving DecidableEq

/-- The mutable stats table `self.execution_stats`, keys unique. -/
abbrev StatsMap := List (String × ExecutionStatsEntry)

/-- Dict item assignment `self.execution_stats[key] = entry`: overwrite
the existing entry for `key`, or append a new one. -/
def statsUpdate : StatsMap → String → ExecutionStatsEntry → StatsMap
  | [], key, entry => [(key, entry)]
  | kv :: rest, key, entry =>
    if kv.1 = key then (key, entry) :: rest else kv :: statsUpdate rest key entry

/-- Dict lookup in the stats table. -/
def statsLookup (stats : StatsMap) (key : String) : Option ExecutionStatsEntry :=
  (stats.find? (fun kv => kv.1 = key)).map (fun kv => kv.2)

/-- Embeds `LoaderExecutor.run_single_loader`, fully consumed by its
caller.  Input state: the registry (with this run's stream outcomes) and
the stats table; output: the result the caller observes (the yielded
documents, or the exception propagated) and the stats table after the
`finally` block.  When the key is absent, `LoaderExecutionError` is raised
*before* the `try`/`finally`, so no stats are recorded.  Otherwise
`documents_processed` counts the yields, `errors_count` is `1` exactly
when the stream raised, the wrapped `LoaderExecutionError` carries
`error_type` and `documents_processed`, and the `finally` block records
the stats entry on both exit paths. -/
def run_single_loader (executors : Registry) (stats : StatsMap)
    (loaderType sourceKey : String) :
    Except LoaderError (List Document) × StatsMap :=
  let executorKey := loaderType ++ ":" ++ sourceKey
  match lookupExec executors executorKey with
  | none =>
    (.error (.loaderExecutionError loaderType sourceKey
        "Executor not found or not initialized" none none), stats)
  | some outcome =>
    let documentsProcessed := outcome.docs.length
    let errorsCount := match outcome.err with | none => 0 | some _ => 1
    let entry : ExecutionStatsEntry :=
      { documentsProcessed := documentsProcessed
        errorsCount := errorsCount
        successRate :=
          if documentsProcessed + errorsCount > 0 then
            (documentsProcessed : Rat) / ((documentsProcessed : Rat) + (errorsCount : Rat))
          else 0 }
    let stats2 := statsUpdate stats executorKey entry
    match outcome.err with
    | none => (.ok outcome.docs, stats2)
    | some e =>
      (.error (.loaderExecutionError loaderType sourceKey
          ("Execution failed: " ++ e.message) (some e.errorType)
          (some documentsProcessed)), stats2)

/-- Embeds `LoaderExecutor.run_all_loaders`.  Concurrency only affects the
completion order of the per-key tasks; the per-key results and the failure
set are order-independent, so the run is modelled in registration order.
A key's task fails exactly when its stream raises (the wrapped
`LoaderExecutionError` is caught by the task's `except Exception`); a
failed key contributes `[]`.  `ConcurrentExecutionError` is raised only
when `failed_loaders` is non-empty and covers every registered key. -/
def run_all_loaders (executors : Registry) :
    Except LoaderError (List (String × List Document)) :=
  -- `if not self.executors: return {}`
  if executors = [] then .ok []
  else
    let results := executors.map
      (fun kv => (kv.1, match kv.2.err with | some _ => [] | none => kv.2.docs))
    let failed := (executors.filter (fun kv => kv.2.err.isSome)).map (fun kv => kv.1)
    if failed ≠ [] ∧ failed.length = executors.length then
      .error (.concurrentExecutionError failed)
    else .ok results

/-- Embeds `LoaderExecutor.run_loaders_by_type`: sequentially run the
executors whose key starts with `"<source_type.value>:"` (the
`startswith` test is embedded on the character lists); each iteration is
wrapped in `try`/`except Exception`, so a failing executor contributes an
empty list and nothing propagates. -/
def run_loaders_by_type (executors : Registry) (sourceType : SourceType) :
    List (String × List Document) :=
  let matching := executors.filter
    (fun kv => (sourceType.value ++ ":").toList.isPrefixOf kv.1.toList)
  -- `if not matching_executors: return {}`
  if matching = [] then []
  else matching.map
    (fun kv => (kv.1, match kv.2.err with | some _ => [] | none => kv.2.docs))

/-- Embeds `LoaderExecutor.health_check`.  The per-executor probe in the
source (`DateRange()`, line 360) is wrapped in `try`/`except`; the probe
outcome per key is an input Boolean here (in the source as written the
probe cannot fail, which makes the `except` branch unreachable but
present).  Returns the overall `status`, the per-key status strings, and
the `summary` counters. -/
def health_check (probes : List (String × Bool)) :
    String × List (String × String) × Nat × Nat :=
  let executorsDict := probes.map
    (fun kv => (kv.1, if kv.2 then "healthy" else "unhealthy"))
  let healthyCount := (probes.filter (fun kv => kv.2)).length
  let unhealthyCount := (probes.filter (fun kv => !kv.2)).length
  let status :=
    if unhealthyCount > 0 then
      if healthyCount > 0 then "degraded" else "unhealthy"
    else "healthy"
  (status, executorsDict, healthyCount, unhealthyCount)

/-! ## Concrete data used to instantiate the theorems -/

/-- A sample metadata record. -/
def metaEx : DocumentMetadata := { sourceType := .slack, sourceId := "s1" }

/-- A sample document. -/
def docEx : Document :=
  { id := "doc1", title := "greeting", text := "hello there".toList, metadata := metaEx }

/-- The chunk `chunk_document` emits at index 1 for `docEx` with chunk
size 5. -/
def ckEx1 : ProcessedChunk :=
  { id := "doc1_chunk_1", text := "ther".toList, chunkType := .text,
    chunkIndex := 1, documentId := "doc1", sourceMetadata := metaEx }

/-- A document on which the word-boundary heuristic fires inside a word
run: with chunk size 10 the first slice is `"aaaaaa bbX"`, the last space
is at index 6 (past the midpoint 5), so the slice is truncated there. -/
def docC1 : Document :=
  { id := "d", title := "", text := "aaaaaa bbXcccc".toList, metadata := metaEx }

/-- A 45-document stream. -/
def docs45 : List Document := List.replicate 45 docEx

/-- A stream factory that fails with `ConnectionError` on its first two
invocations and yields two items on the third. -/
def factoryEx : Nat → List Nat × Option StreamError :=
  fun attempt => if attempt < 2 then ([], some .connectionError) else ([7, 8], none)

/-- A sample executor-run failure. -/
def failEx : ExecutorFailure := { errorType := "RuntimeError", message := "boom" }

/-- Registry with one succeeding and one failing executor. -/
def regMixed : Registry :=
  [("slack:a", { docs := [docEx] }), ("github:b", { docs := [docEx], err := some failEx })]

/-- Registry in which every executor fails. -/
def regFail : Registry :=
  [("slack:a", { docs := [], err := some failEx }),
   ("github:b", { docs := [], err := some failEx })]

/-- A run outcome that yields two documents and then raises. -/
def outC6 : ExecOutcome := { docs := [docEx, docEx], err := some failEx }

/-- Registry with one failing executor that yields two documents before
raising. -/
def regC6 : Registry := [("slack:a", outC6)]

/-- A run outcome that yields one document and then raises. -/
def outC10a : ExecOutcome := { docs := [docEx], err := some failEx }

/-- Registry where both slack executors fail and a github one succeeds. -/
def regC10 : Registry :=
  [("slack:a", outC10a),
   ("slack:b", { docs := [], err := some failEx }),
   ("github:c", { docs := [docEx] })]

/-! ## Chunking lemmas -/

lemma chunkTextsAux_nil (c fuel : Nat) : chunkTextsAux c fuel [] = [] := by
  cases fuel <;> simp [chunkTextsAux]

lemma chunkTexts_nil (c : Nat) : chunkTexts c [] = [] := by
  rw [chunkTexts]
  split <;> simp [chunkTextsAux_nil]

lemma chunkTextsAux_congr (c : Nat) (hc : c ≠ 0) :
    ∀ f₁ f₂ text, text.length ≤ f₁ → text.length ≤ f₂ →
      chunkTextsAux c f₁ text = chunkTextsAux c f₂ text := by
  intro f₁
  induction f₁ with
  | zero =>
    intro f₂ text h1 _
    have ht : text = [] := List.length_eq_zero.mp (Nat.le_zero.mp h1)
    rw [ht, chunkTextsAux_nil, chunkTextsAux_nil]
  | succ f ih =>
    intro f₂ text h1 h2
    cases f₂ with
    | zero =>
      have ht : text = [] := List.length_eq_zero.mp (Nat.le_zero.mp h2)
      rw [ht, chunkTextsAux_nil, chunkTextsAux_nil]
    | succ g =>
      by_cases ht : text = []
      · rw [ht, chunkTextsAux_nil, chunkTextsAux_nil]
      · have hpos : 0 < text.length := List.length_pos.mpr ht
        have hcpos : 0 < c := Nat.pos_of_ne_zero hc
        simp only [chunkTextsAux, if_neg ht]
        congr 1
        exact ih g (text.drop c)
          (by simp only [List.length_drop]; omega)
          (by simp only [List.length_drop]; omega)

lemma chunkTexts_cons (c : Nat) (hc : c ≠ 0) (text : List Char) (ht : text ≠ []) :
    chunkTexts c text = cutText c text :: chunkTexts c (text.drop c) := by
  have hpos : 0 < text.length := List.length_pos.mpr ht
  have hcpos : 0 < c := Nat.pos_of_ne_zero hc
  rw [chunkTexts, chunkTexts, if_neg hc, if_neg hc]
  obtain ⟨n, hn⟩ : ∃ n, text.length = n + 1 := ⟨text.length - 1, by omega⟩
  rw [hn]
  simp only [chunkTextsAux, if_neg ht]
  congr 1
  exact chunkTextsAux_congr c hc n (text.drop c).length (text.drop c)
    (by simp only [List.length_drop]; omega) le_rfl

lemma chunkTexts_drop (c : Nat) (hc : c ≠ 0) (text : List Char) :
    ∀ k, (chunkTexts c text).drop k = chunkTexts c (text.drop (k * c)) := by
  intro k
  induction k with
  | zero => simp
  | succ k ih =>
    have hsplit : (chunkTexts c text).drop (k + 1) = ((chunkTexts c text).drop k).drop 1 :=
      (List.drop_drop 1 k _).symm
    rw [hsplit, ih]
    by_cases h : text.drop (k * c) = []
    · have h2 : text.drop ((k + 1) * c) = [] := by
        have hdd : (text.drop (k * c)).drop c = text.drop (k * c + c) := List.drop_drop c (k * c) text
        rw [Nat.succ_mul, ← hdd, h]
        simp
      rw [h, h2, chunkTexts_nil]
      simp
    · rw [chunkTexts_cons c hc _ h]
      simp only [List.drop_one, List.tail_cons]
      rw [List.drop_drop, Nat.succ_mul]

lemma buildChunks_map_text (document : Document) :
    ∀ ts idx, (buildChunks document idx ts).map (fun ck => ck.text) = ts.map stripChars := by
  intro ts
  induction ts with
  | nil => intro idx; simp [buildChunks]
  | cons t ts ih =>
    intro idx
    simp only [buildChunks, List.map_cons]
    rw [ih]

lemma chunk_document_map_text (document : Document) (c : Nat) (h : document.text ≠ []) :
    (chunk_document document c).map (fun ck => ck.text) =
      (chunkTexts c document.text).map stripChars := by
  rw [chunk_document, if_neg h]
  exact buildChunks_map_text document (chunkTexts c document.text) 0

lemma buildChunks_getElem (document : Document) :
    ∀ ts idx i ck, (buildChunks document idx ts)[i]? = some ck →
      ck.chunkIndex = idx + i ∧
      ck.id = document.id ++ "_chunk_" ++ toString (idx + i) ∧
      (∃ t, ck.text = stripChars t) ∧
      ck.documentId = document.id ∧
      ck.sourceMetadata = document.metadata := by
  intro ts
  induction ts with
  | nil => intro idx i ck h; simp [buildChunks] at h
  | cons t ts ih =>
    intro idx i ck h
    cases i with
    | zero =>
      simp only [buildChunks, List.getElem?_cons_zero, Option.some.injEq] at h
      subst h
      exact ⟨by simp, by simp, ⟨t, rfl⟩, rfl, rfl⟩
    | succ i' =>
      simp only [buildChunks, List.getElem?_cons_succ] at h
      obtain ⟨h1, h2, h3, h4, h5⟩ := ih (idx + 1) i' ck h
      refine ⟨by omega, ?_, h3, h4, h5⟩
      rw [h2]
      have harith : idx + 1 + i' = idx + (i' + 1) := by omega
      rw [harith]

lemma head?_dropWhile_isWhitespace (p : Char → Bool) (l : List Char) :
    ∀ ch, (l.dropWhile p).head? = some ch → p ch = false := by
  induction l with
  | nil => intro ch h; simp [List.dropWhile] at h
  | cons a l ih =>
    intro ch h
    by_cases hp : p a
    · rw [List.dropWhile_cons, if_pos hp] at h
      exact ih ch h
    · rw [List.dropWhile_cons, if_neg hp] at h
      simp only [List.head?_cons, Option.some.injEq] at h
      rw [← h]
      exact Bool.eq_false_iff.mpr hp

lemma getLast?_dropWhile (p : Char → Bool) (l : List Char)
    (h : l.dropWhile p ≠ []) : (l.dropWhile p).getLast? = l.getLast? := by
  induction l with
  | nil => simp [List.dropWhile] at h
  | cons a l ih =>
    by_cases hp : p a
    · rw [List.dropWhile_cons, if_pos hp] at h ⊢
      have hl : l ≠ [] := by
        intro he
        rw [he] at h
        simp [List.dropWhile] at h
      rw [ih h]
      cases l with
      | nil => exact absurd rfl hl
      | cons b l' => simp [List.getLast?_cons_cons]
    · rw [List.dropWhile_cons, if_neg hp]

lemma trimmed_stripChars (l : List Char) : TrimmedChars (stripChars l) := by
  constructor
  · intro ch h
    rw [stripChars, List.head?_reverse] at h
    have hne : (l.dropWhile Char.isWhitespace).reverse.dropWhile Char.isWhitespace ≠ [] := by
      intro he
      rw [he] at h
      simp at h
    rw [getLast?_dropWhile _ _ hne, List.getLast?_reverse] at h
    exact head?_dropWhile_isWhitespace _ _ ch h
  · intro ch h
    rw [stripChars, List.getLast?_reverse] at h
    exact head?_dropWhile_isWhitespace _ _ ch h

/-- Claim C7: for every document, empty text yields an empty chunk list;
otherwise the emitted chunks carry `chunk_index` values equal to their
positions (hence `0..N-1` in emission order), each chunk's id is
`"<document.id>_chunk_<index>"`, each chunk's text is trimmed of leading
and trailing whitespace, and `document_id` and `source_metadata` are
copied from the parent document. -/
theorem chunk_document_invariants (document : Document) (c : Nat) (hc : 0 < c) :
    (document.text = [] → chunk_document document c = []) ∧
    ∀ (i : Nat) (ck : ProcessedChunk), (chunk_document document c)[i]? = some ck →
      ck.chunkIndex = i ∧
      ck.id = document.id ++ "_chunk_" ++ toString i ∧
      TrimmedChars ck.text ∧
      ck.documentId = document.id ∧
      ck.sourceMetadata = document.metadata := by
  constructor
  · intro h
    simp [chunk_document, h]
  · intro i ck h
    rw [chunk_document] at h
    split at h
    · simp at h
    · obtain ⟨h1, h2, ⟨t, h3⟩, h4, h5⟩ := buildChunks_getElem document _ 0 i ck h
      refine ⟨by simpa using h1, by simpa using h2, ?_, h4, h5⟩
      rw [h3]
      exact trimmed_stripChars t

/-- Claim C7 witness: the invariants instantiated at `docEx` with chunk
size 5, index 1. -/
theorem chunk_document_invariants_witness :
    ckEx1.chunkIndex = 1 ∧
    ckEx1.id = docEx.id ++ "_chunk_" ++ toString 1 ∧
    TrimmedChars ckEx1.text ∧
    ckEx1.documentId = docEx.id ∧
    ckEx1.sourceMetadata = docEx.metadata :=
  (chunk_document_invariants docEx 5 (by decide)).2 1 ckEx1 (by decide)

/-- Claim C1 counterexample: on `docC1` with chunk size 10, the
word-boundary heuristic truncates the first slice `"aaaaaa bbX"` at the
space (index 6, past the midpoint), but the truncated remainder `"bbX"`
does not carry forward: the next chunk starts at the fixed offset 10, so
the non-whitespace character `'X'` of the source text appears in no
emitted chunk — concatenating the chunk texts cannot reconstruct the
source text up to whitespace trimming. -/
theorem chunk_document_truncation_loses_text :
    (chunk_document docC1 10).map (fun ck => ck.text) =
      ["aaaaaa".toList, "cccc".toList] ∧
    'X' ∈ docC1.text ∧
    Char.isWhitespace 'X' = false ∧
    ∀ ck ∈ chunk_document docC1 10, 'X' ∉ ck.text := by
  refine ⟨by decide, by decide, by decide, by decide⟩

/-- Claim C1 (amended): for chunk size `c`, when the slice at offset
`k * c` is not the final slice, the character after it is not whitespace,
and the last space of the slice sits at index `j` past the midpoint
(`2 * j > c`), then the emitted chunk `k` is the slice truncated at that
space (then stripped) — but the remainder does *not* carry forward: the
chunks after position `k` are exactly those computed from the fixed
offset `(k + 1) * c`, so the slice's characters past the space are
dropped from the output rather than re-emitted. -/
theorem chunk_document_truncation (document : Document) (c k j : Nat)
    (hc : c ≠ 0)
    (hnotfinal : (k + 1) * c < document.text.length)
    (hnospace : headIsSpace (document.text.drop ((k + 1) * c)) = false)
    (hlast : lastSpaceIdx ((document.text.drop (k * c)).take c) = some j)
    (hmid : 2 * j > c) :
    ((chunk_document document c).map (fun ck => ck.text))[k]? =
      some (stripChars (((document.text.drop (k * c)).take c).take j)) ∧
    ((chunk_document document c).map (fun ck => ck.text)).drop (k + 1) =
      (chunkTexts c (document.text.drop ((k + 1) * c))).map stripChars := by
  have hcpos : 0 < c := Nat.pos_of_ne_zero hc
  have hlen : k * c < document.text.length := by
    have hmono : k * c ≤ (k + 1) * c := Nat.mul_le_mul_right c (Nat.le_succ k)
    omega
  have htext : document.text ≠ [] := by
    intro h
    rw [h] at hnotfinal
    simp at hnotfinal
  have hrest : document.text.drop (k * c) ≠ [] := by
    intro h
    have hlen2 := congrArg List.length h
    simp only [List.length_drop, List.length_nil] at hlen2
    omega
  have hdd : (document.text.drop (k * c)).drop c = document.text.drop ((k + 1) * c) := by
    rw [List.drop_drop, Nat.succ_mul]
  have hrestne : (document.text.drop ((k + 1) * c)).isEmpty = false := by
    have hne : document.text.drop ((k + 1) * c) ≠ [] := by
      intro h
      have hlen2 := congrArg List.length h
      simp only [List.length_drop, List.length_nil] at hlen2
      omega
    cases he : document.text.drop ((k + 1) * c) with
    | nil => exact absurd he hne
    | cons a l => rfl
  have hcut : cutText c (document.text.drop (k * c)) =
      ((document.text.drop (k * c)).take c).take j := by
    rw [cutText]
    simp only [hdd, hrestne, hnospace, Bool.not_false, Bool.and_self, if_true, hlast]
    rw [if_pos hmid]
  constructor
  · rw [chunk_document_map_text document c htext, List.getElem?_map]
    have hk : (chunkTexts c document.text)[k]? =
        some (cutText c (document.text.drop (k * c))) := by
      rw [← List.head?_drop, chunkTexts_drop c hc document.text k,
        chunkTexts_cons c hc _ hrest]
      rfl
    rw [hk, hcut]
    rfl
  · rw [chunk_document_map_text document c htext, ← List.map_drop]
    have hdrop : (chunkTexts c document.text).drop (k + 1) =
        chunkTexts c (document.text.drop ((k + 1) * c)) := by
      have hsplit : (chunkTexts c document.text).drop (k + 1) =
          ((chunkTexts c document.text).drop k).drop 1 := (List.drop_drop 1 k _).symm
      rw [hsplit, chunkTexts_drop c hc document.text k, chunkTexts_cons c hc _ hrest]
      simp only [List.drop_one, List.tail_cons]
      rw [hdd]
    rw [hdrop]

/-- Claim C1 witness: the amended truncation behaviour instantiated at
`docC1` with chunk size 10, slice 0, last space at index 6. -/
theorem chunk_document_truncation_witness :
    ((chunk_document docC1 10).map (fun ck => ck.text))[0]? =
      some (stripChars (((docC1.text.drop (0 * 10)).take 10).take 6)) ∧
    ((chunk_document docC1 10).map (fun ck => ck.text)).drop (0 + 1) =
      (chunkTexts 10 (docC1.text.drop ((0 + 1) * 10))).map stripChars :=
  chunk_document_truncation docC1 10 0 6 (by decide) (by decide) (by decide)
    (by decide) (by decide)

/-! ## Batcher lemmas -/

lemma processBatchLoop_join (b : Nat) :
    ∀ stream batch, (processBatchLoop b batch stream).join = batch ++ stream := by
  intro stream
  induction stream with
  | nil =>
    intro batch
    by_cases hbe : batch = []
    · simp [processBatchLoop, hbe]
    · simp [processBatchLoop, hbe]
  | cons d rest ih =>
    intro batch
    by_cases hge : (batch ++ [d]).length ≥ b
    · have heq : processBatchLoop b batch (d :: rest) =
          (batch ++ [d]) :: processBatchLoop b [] rest := by
        rw [processBatchLoop]
        rw [if_pos hge]
      rw [heq]
      simp only [List.join_cons, ih]
      simp
    · have heq : processBatchLoop b batch (d :: rest) =
          processBatchLoop b (batch ++ [d]) rest := by
        rw [processBatchLoop]
        rw [if_neg hge]
      rw [heq, ih]
      simp

lemma processBatchLoop_sizes (b : Nat) (hb : 0 < b) :
    ∀ stream batch, batch.length < b →
      ∀ (i : Nat) (bt : List Document), (processBatchLoop b batch stream)[i]? = some bt →
        bt ≠ [] ∧ bt.length ≤ b ∧
        (i + 1 < (processBatchLoop b batch stream).length → bt.length = b) := by
  intro stream
  induction stream with
  | nil =>
    intro batch hlt i bt h
    by_cases hbe : batch = []
    · simp [processBatchLoop, hbe] at h
    · have heq : processBatchLoop b batch [] = [batch] := by
        rw [processBatchLoop, if_neg hbe]
      rw [heq] at h ⊢
      cases i with
      | zero =>
        simp only [List.getElem?_cons_zero, Option.some.injEq] at h
        subst h
        exact ⟨hbe, Nat.le_of_lt hlt, by intro hcon; simp at hcon⟩
      | succ i' => simp at h
  | cons d rest ih =>
    intro batch hlt i bt h
    by_cases hge : (batch ++ [d]).length ≥ b
    · have heq : processBatchLoop b batch (d :: rest) =
          (batch ++ [d]) :: processBatchLoop b [] rest := by
        rw [processBatchLoop]
        rw [if_pos hge]
      have hfull : (batch ++ [d]).length = b := by
        simp only [List.length_append, List.length_singleton] at hge ⊢
        omega
      rw [heq] at h ⊢
      cases i with
      | zero =>
        simp only [List.getElem?_cons_zero, Option.some.injEq] at h
        subst h
        refine ⟨by simp, Nat.le_of_eq hfull, fun _ => hfull⟩
      | succ i' =>
        simp only [List.getElem?_cons_succ] at h
        obtain ⟨h1, h2, h3⟩ := ih [] (by simpa using hb) i' bt h
        refine ⟨h1, h2, fun hi => h3 ?_⟩
        simp only [List.length_cons] at hi
        omega
    · have heq : processBatchLoop b batch (d :: rest) =
          processBatchLoop b (batch ++ [d]) rest := by
        rw [processBatchLoop]
        rw [if_neg hge]
      have hlt2 : (batch ++ [d]).length < b := by omega
      rw [heq] at h ⊢
      exact ih (batch ++ [d]) hlt2 i bt h

/-- Claim C8: the batcher yields ordered, non-overlapping batches whose
in-order concatenation is exactly the input stream (no document retried,
filtered, mutated, duplicated, or dropped); every batch except possibly
the final one has exactly the effective batch size `b`, and no batch
exceeds `b` or is empty. -/
theorem process_batch_partitions (selfBatchSize : Nat) (override : Option Nat)
    (b : Nat) (hb : effectiveBatchSize selfBatchSize override = b) (hpos : 0 < b)
    (stream : List Document) :
    (process_batch selfBatchSize override stream).join = stream ∧
    ∀ (i : Nat) (bt : List Document),
      (process_batch selfBatchSize override stream)[i]? = some bt →
        bt ≠ [] ∧ bt.length ≤ b ∧
        (i + 1 < (process_batch selfBatchSize override stream).length → bt.length = b) := by
  rw [process_batch, hb]
  exact ⟨by simpa using processBatchLoop_join b stream [],
    fun i bt h => processBatchLoop_sizes b hpos stream [] (by simpa using hpos) i bt h⟩

/-- Claim C8 witness: a stream of 45 documents with the default batch
size 20 yields batches of sizes 20, 20, 5 in order, concatenating back to
the stream. -/
theorem process_batch_partitions_witness :
    (process_batch 20 none docs45).join = docs45 ∧
    (process_batch 20 none docs45).map List.length = [20, 20, 5] :=
  ⟨(process_batch_partitions 20 none 20 (by decide) (by decide) docs45).1, by decide⟩

/-! ## Retry-policy lemmas -/

lemma retryFrom_step {α : Type} (factory : Nat → List α × Option StreamError)
    (baseDelay : Rat) (attempt remaining : Nat) :
    retryFrom factory baseDelay attempt (remaining + 1) =
      match (factory attempt).2 with
      | none => ⟨(factory attempt).1, [], none, 1⟩
      | some e =>
        if isTransientStreamError e then
          if remaining = 0 then ⟨(factory attempt).1, [], some e, 1⟩
          else
            ⟨(factory attempt).1 ++ (retryFrom factory baseDelay (attempt + 1) remaining).emitted,
              baseDelay * 2 ^ attempt :: (retryFrom factory baseDelay (attempt + 1) remaining).sleeps,
              (retryFrom factory baseDelay (attempt + 1) remaining).raised,
              (retryFrom factory baseDelay (attempt + 1) remaining).attempts + 1⟩
        else ⟨(factory attempt).1, [], some e, 1⟩ := rfl

/-- Claim C3: with `max_retries = 3` and any stream factory: (a) if the
factory fails transiently on its first two invocations and succeeds on
the third, the policy relays the third stream's items (after whatever the
failed attempts had already yielded) and does not raise, having slept
`base_delay * 2^0` and `base_delay * 2^1` between consecutive attempts;
(b) if the factory always fails transiently, the policy raises after
exactly 3 attempts with the same two sleeps; (c) if the first invocation
fails non-transiently, the policy raises immediately after 1 attempt with
no sleep. -/
theorem execute_with_retry_policy {α : Type} (baseDelay : Rat)
    (factory : Nat → List α × Option StreamError) :
    (∀ e0 e1, (factory 0).2 = some e0 → isTransientStreamError e0 = true →
      (factory 1).2 = some e1 → isTransientStreamError e1 = true →
      (factory 2).2 = none →
      execute_with_retry 3 baseDelay factory =
        ⟨(factory 0).1 ++ ((factory 1).1 ++ (factory 2).1),
          [baseDelay * 2 ^ 0, baseDelay * 2 ^ 1], none, 3⟩) ∧
    ((∀ a : Nat, ∃ e, (factory a).2 = some e ∧ isTransientStreamError e = true) →
      ∃ e2, (factory 2).2 = some e2 ∧
        execute_with_retry 3 baseDelay factory =
          ⟨(factory 0).1 ++ ((factory 1).1 ++ (factory 2).1),
            [baseDelay * 2 ^ 0, baseDelay * 2 ^ 1], some e2, 3⟩) ∧
    (∀ e, (factory 0).2 = some e → isTransientStreamError e = false →
      execute_with_retry 3 baseDelay factory = ⟨(factory 0).1, [], some e, 1⟩) := by
  refine ⟨?_, ?_, ?_⟩
  · intro e0 e1 h0 t0 h1 t1 h2
    have s2 : retryFrom factory baseDelay 2 1 = ⟨(factory 2).1, [], none, 1⟩ := by
      have hstep := retryFrom_step factory baseDelay 2 0
      rw [h2] at hstep
      simpa using hstep
    have s1 : retryFrom factory baseDelay 1 2 =
        ⟨(factory 1).1 ++ (factory 2).1, [baseDelay * 2 ^ 1], none, 2⟩ := by
      have hstep := retryFrom_step factory baseDelay 1 1
      rw [h1] at hstep
      simp only [t0, t1, if_true, one_ne_zero, if_false, s2] at hstep
      simpa using hstep
    have hstep := retryFrom_step factory baseDelay 0 2
    rw [h0] at hstep
    simp only [t0, if_true, s1] at hstep
    rw [execute_with_retry]
    simpa using hstep
  · intro hall
    obtain ⟨e0, h0, t0⟩ := hall 0
    obtain ⟨e1, h1, t1⟩ := hall 1
    obtain ⟨e2, h2, t2⟩ := hall 2
    refine ⟨e2, h2, ?_⟩
    have s2 : retryFrom factory baseDelay 2 1 = ⟨(factory 2).1, [], some e2, 1⟩ := by
      have hstep := retryFrom_step factory baseDelay 2 0
      rw [h2] at hstep
      simp only [t2, if_true] at hstep
      simpa using hstep
    have s1 : retryFrom factory baseDelay 1 2 =
        ⟨(factory 1).1 ++ (factory 2).1, [baseDelay * 2 ^ 1], some e2, 2⟩ := by
      have hstep := retryFrom_step factory baseDelay 1 1
      rw [h1] at hstep
      simp only [t1, if_true, one_ne_zero, if_false, s2] at hstep
      simpa using hstep
    have hstep := retryFrom_step factory baseDelay 0 2
    rw [h0] at hstep
    simp only [t0, if_true, s1] at hstep
    rw [execute_with_retry]
    simpa using hstep
  · intro e h0 t0
    have hstep := retryFrom_step factory baseDelay 0 2
    rw [h0] at hstep
    simp only [t0, Bool.false_eq_true, if_false] at hstep
    rw [execute_with_retry]
    simpa using hstep

/-- Claim C3 witness: the first scenario instantiated at a factory that
fails with `ConnectionError` twice and then yields two items, with
`base_delay = 1`. -/
theorem execute_with_retry_policy_witness :
    execute_with_retry 3 1 factoryEx =
      ⟨(factoryEx 0).1 ++ ((factoryEx 1).1 ++ (factoryEx 2).1),
        [1 * 2 ^ 0, 1 * 2 ^ 1], none, 3⟩ :=
  (execute_with_retry_policy 1 factoryEx).1 .connectionError .connectionError
    (by decide) (by decide) (by decide) (by decide) (by decide)

/-! ## Orchestrator lemmas -/

lemma statsLookup_statsUpdate (stats : StatsMap) (key : String)
    (entry : ExecutionStatsEntry) :
    statsLookup (statsUpdate stats key entry) key = some entry := by
  induction stats with
  | nil => simp [statsUpdate, statsLookup, List.find?]
  | cons kv rest ih =>
    by_cases hk : kv.1 = key
    · simp [statsUpdate, hk, statsLookup, List.find?]
    · simp only [statsUpdate, if_neg hk]
      rw [statsLookup, List.find?_cons_of_neg _ (by simp [hk])]
      exact ih

/-- Claim C2 counterexample: with an empty registry, every registered
executor fails (vacuously) and yet `run_all_loaders` returns the empty
result map normally rather than raising the aggregate error. -/
theorem run_all_loaders_empty_registry :
    (∀ kv ∈ ([] : Registry), kv.2.err.isSome) ∧
    run_all_loaders [] = .ok [] :=
  ⟨by simp, rfl⟩

/-- Claim C2 (amended): if at least one registered executor succeeds,
`run_all_loaders` returns normally a result map with exactly one entry
per registered key — a failed key mapping to the empty list, a
successful key to its yielded documents; if at least one executor is
registered and every registered executor fails, it raises
`ConcurrentExecutionError` carrying the full list of failed keys.  (With
an empty registry it returns the empty map without raising.) -/
theorem run_all_loaders_policy (executors : Registry) :
    ((∃ kv ∈ executors, kv.2.err = none) →
      run_all_loaders executors = .ok (executors.map
        (fun kv => (kv.1, match kv.2.err with | some _ => [] | none => kv.2.docs)))) ∧
    ((executors ≠ [] ∧ ∀ kv ∈ executors, kv.2.err.isSome) →
      run_all_loaders executors =
        .error (.concurrentExecutionError (executors.map (fun kv => kv.1)))) := by
  constructor
  · rintro ⟨kv, hmem, herr⟩
    have hne : executors ≠ [] := List.ne_nil_of_mem hmem
    simp only [run_all_loaders, if_neg hne]
    have hlt : ((executors.filter (fun kv => kv.2.err.isSome)).map (fun kv => kv.1)).length <
        executors.length := by
      rw [List.length_map]
      exact List.length_filter_lt_length_iff_exists.mpr ⟨kv, hmem, by simp [herr]⟩
    have hcond : ¬(((executors.filter (fun kv => kv.2.err.isSome)).map (fun kv => kv.1)) ≠ [] ∧
        ((executors.filter (fun kv => kv.2.err.isSome)).map (fun kv => kv.1)).length =
          executors.length) := by
      rintro ⟨h1, h2⟩
      omega
    rw [if_neg hcond]
  · rintro ⟨hne, hall⟩
    simp only [run_all_loaders, if_neg hne]
    have hfeq : executors.filter (fun kv => kv.2.err.isSome) = executors :=
      List.filter_eq_self.mpr hall
    rw [hfeq, if_pos ⟨fun h => hne (List.map_eq_nil_iff.mp h), List.length_map _ _⟩]

/-- Claim C2 witness: the amended policy instantiated at a mixed registry
(one success, one failure) and at an all-failing registry. -/
theorem run_all_loaders_policy_witness :
    run_all_loaders regMixed = .ok [("slack:a", [docEx]), ("github:b", [])] ∧
    run_all_loaders regFail =
      .error (.concurrentExecutionError ["slack:a", "github:b"]) := by
  constructor
  · have h := (run_all_loaders_policy regMixed).1 (by decide)
    exact h.trans rfl
  · have h := (run_all_loaders_policy regFail).2 ⟨by decide, by decide⟩
    exact h.trans rfl

/-- Claim C4 counterexample: looking up an unregistered key makes
`run_single_loader` raise `LoaderExecutionError`, which is *not* of the
Configuration kind in the exception hierarchy of `core/exceptions.py`
(it extends `ExecutionError`, not `ConfigurationError`). -/
theorem run_single_loader_missing_key_error_class :
    (run_single_loader [] [] "slack" "general").1 =
      .error (.loaderExecutionError "slack" "general"
        "Executor not found or not initialized" none none) ∧
    isConfigurationClassError (.loaderExecutionError "slack" "general"
      "Executor not found or not initialized" none none) = false :=
  ⟨rfl, rfl⟩

/-- Claim C4 (amended): for every `loader_type` and `source_key` whose
combined key is not in the registry, `run_single_loader` fails with a
loader-execution error (`LoaderExecutionError`, of the Loader-execution
kind, not the Configuration kind) carrying the loader type, the source
key and the message `"Executor not found or not initialized"`, and
records no statistics. -/
theorem run_single_loader_missing_key (executors : Registry) (stats : StatsMap)
    (loaderType sourceKey : String)
    (h : lookupExec executors (loaderType ++ ":" ++ sourceKey) = none) :
    run_single_loader executors stats loaderType sourceKey =
      (.error (.loaderExecutionError loaderType sourceKey
        "Executor not found or not initialized" none none), stats) ∧
    isConfigurationClassError (.loaderExecutionError loaderType sourceKey
      "Executor not found or not initialized" none none) = false := by
  refine ⟨?_, rfl⟩
  simp only [run_single_loader, h]

/-- Claim C4 witness: the amended behaviour instantiated at a registry
that does not contain the key `confluence:wiki`. -/
theorem run_single_loader_missing_key_witness :
    run_single_loader regMixed [] "confluence" "wiki" =
      (.error (.loaderExecutionError "confluence" "wiki"
        "Executor not found or not initialized" none none), []) ∧
    isConfigurationClassError (.loaderExecutionError "confluence" "wiki"
      "Executor not found or not initialized" none none) = false :=
  run_single_loader_missing_key regMixed [] "confluence" "wiki" (by decide)

/-- Claim C6: for every run of `run_single_loader` on a registered key,
whether the stream completes normally (`outcome.err = none`) or raises,
the stats entry for that key is present afterwards — overwriting any
previous entry in the arbitrary incoming `stats` table — with
`documents_processed` the number of yielded documents, `errors_count` 1
exactly when the stream raised, and success rate
`processed / (processed + errors)`, equal to 0 when both are zero. -/
theorem run_single_loader_records_stats (executors : Registry) (stats : StatsMap)
    (loaderType sourceKey : String) (outcome : ExecOutcome)
    (h : lookupExec executors (loaderType ++ ":" ++ sourceKey) = some outcome) :
    ∃ entry : ExecutionStatsEntry,
      statsLookup (run_single_loader executors stats loaderType sourceKey).2
          (loaderType ++ ":" ++ sourceKey) = some entry ∧
      entry.documentsProcessed = outcome.docs.length ∧
      entry.errorsCount = (if outcome.err.isSome then 1 else 0) ∧
      (entry.documentsProcessed + entry.errorsCount = 0 → entry.successRate = 0) ∧
      (0 < entry.documentsProcessed + entry.errorsCount →
        entry.successRate = (entry.documentsProcessed : Rat) /
          ((entry.documentsProcessed : Rat) + (entry.errorsCount : Rat))) := by
  simp only [run_single_loader, h]
  cases herr : outcome.err with
  | none =>
    refine ⟨_, statsLookup_statsUpdate stats _ _, rfl, by simp, ?_, ?_⟩
    · intro h0
      dsimp only at h0 ⊢
      rw [if_neg (by omega)]
    · intro hpos
      dsimp only at hpos ⊢
      rw [if_pos (by omega)]
  | some e =>
    refine ⟨_, statsLookup_statsUpdate stats _ _, rfl, by simp, ?_, ?_⟩
    · intro h0
      dsimp only at h0 ⊢
      rw [if_neg (by omega)]
    · intro hpos
      dsimp only at hpos ⊢
      rw [if_pos (by omega)]

/-- Claim C6 witness: the stats finalizer instantiated at a registry
whose single executor yields two documents and then raises. -/
theorem run_single_loader_records_stats_witness :
    ∃ entry : ExecutionStatsEntry,
      statsLookup (run_single_loader regC6 [] "slack" "a").2
          ("slack" ++ ":" ++ "a") = some entry ∧
      entry.documentsProcessed = outC6.docs.length ∧
      entry.errorsCount = (if outC6.err.isSome then 1 else 0) ∧
      (entry.documentsProcessed + entry.errorsCount = 0 → entry.successRate = 0) ∧
      (0 < entry.documentsProcessed + entry.errorsCount →
        entry.successRate = (entry.documentsProcessed : Rat) /
          ((entry.documentsProcessed : Rat) + (entry.errorsCount : Rat))) :=
  run_single_loader_records_stats regC6 [] "slack" "a" outC6 (by decide)

/-- Claim C5 counterexample: with no executors registered, `health_check`
reports overall status `"healthy"`, not `"unhealthy"` as the claim
requires. -/
theorem health_check_empty_registry :
    (health_check []).1 = "healthy" ∧ ("healthy" : String) ≠ "unhealthy" :=
  ⟨rfl, by decide⟩

/-- Claim C5 (amended): `health_check` reports overall status
`"healthy"` exactly when every registered executor probes healthy (in
particular with no executors registered), `"degraded"` when some but not
all probe healthy, and `"unhealthy"` when at least one executor is
registered and all registered executors fail their probe. -/
theorem health_check_overall_status (probes : List (String × Bool)) :
    ((health_check probes).1 = "healthy" ↔ ∀ kv ∈ probes, kv.2 = true) ∧
    ((∃ kv ∈ probes, kv.2 = true) ∧ (∃ kv ∈ probes, kv.2 = false) →
      (health_check probes).1 = "degraded") ∧
    (probes ≠ [] ∧ (∀ kv ∈ probes, kv.2 = false) →
      (health_check probes).1 = "unhealthy") := by
  have hfst : (health_check probes).1 =
      (if (probes.filter (fun kv => !kv.2)).length > 0 then
        (if (probes.filter (fun kv => kv.2)).length > 0 then "degraded" else "unhealthy")
      else "healthy") := rfl
  refine ⟨?_, ?_, ?_⟩
  · rw [hfst]
    constructor
    · intro hs kv hmem
      by_contra hfalse
      have hkv : (!kv.2) = true := by
        cases hb : kv.2
        · rfl
        · exact absurd hb hfalse
      have hlen : 0 < (probes.filter (fun kv => !kv.2)).length :=
        List.length_pos.mpr (List.ne_nil_of_mem (List.mem_filter.mpr ⟨hmem, hkv⟩))
      rw [if_pos hlen] at hs
      split at hs
      · exact absurd hs (by decide)
      · exact absurd hs (by decide)
    · intro hall
      have hnil : probes.filter (fun kv => !kv.2) = [] :=
        List.filter_eq_nil_iff.mpr (fun kv hmem => by simp [hall kv hmem])
      rw [hnil]
      simp
  · rintro ⟨⟨kvt, hmemt, ht⟩, ⟨kvf, hmemf, hf⟩⟩
    rw [hfst]
    have h1 : 0 < (probes.filter (fun kv => !kv.2)).length :=
      List.length_pos.mpr (List.ne_nil_of_mem (List.mem_filter.mpr ⟨hmemf, by simp [hf]⟩))
    have h2 : 0 < (probes.filter (fun kv => kv.2)).length :=
      List.length_pos.mpr (List.ne_nil_of_mem (List.mem_filter.mpr ⟨hmemt, by simp [ht]⟩))
    rw [if_pos h1, if_pos h2]
  · rintro ⟨hne, hall⟩
    rw [hfst]
    have hfeq : probes.filter (fun kv => !kv.2) = probes :=
      List.filter_eq_self.mpr (fun kv hmem => by simp [hall kv hmem])
    have h1 : 0 < (probes.filter (fun kv => !kv.2)).length := by
      rw [hfeq]
      exact List.length_pos.mpr hne
    have hnil : probes.filter (fun kv => kv.2) = [] :=
      List.filter_eq_nil_iff.mpr (fun kv hmem => by simp [hall kv hmem])
    rw [if_pos h1, hnil]
    simp

/-- Claim C5 witness: the amended status logic instantiated at a mixed
two-probe registry and at an all-failing two-probe registry. -/
theorem health_check_overall_status_witness :
    (health_check [("slack:a", true), ("github:b", false)]).1 = "degraded" ∧
    (health_check [("slack:a", false), ("github:b", false)]).1 = "unhealthy" :=
  ⟨(health_check_overall_status [("slack:a", true), ("github:b", false)]).2.1
      ⟨⟨("slack:a", true), by decide, rfl⟩, ⟨("github:b", false), by decide, rfl⟩⟩,
    (health_check_overall_status [("slack:a", false), ("github:b", false)]).2.2
      ⟨by decide, by decide⟩⟩

/-- Claim C10: `run_loaders_by_type` never raises on executor failures —
it is total, returning one entry per matching registered key in order;
every matching executor that fails contributes the empty list under its
key, and every matching executor that succeeds contributes its yielded
documents, even when every matching executor fails. -/
theorem run_loaders_by_type_never_raises (executors : Registry) (sourceType : SourceType) :
    ((run_loaders_by_type executors sourceType).map (fun kv => kv.1) =
      (executors.filter (fun kv => (sourceType.value ++ ":").toList.isPrefixOf kv.1.toList)).map
        (fun kv => kv.1)) ∧
    ∀ kv ∈ executors, (sourceType.value ++ ":").toList.isPrefixOf kv.1.toList →
      (kv.2.err.isSome →
        (kv.1, ([] : List Document)) ∈ run_loaders_by_type executors sourceType) ∧
      (kv.2.err = none →
        (kv.1, kv.2.docs) ∈ run_loaders_by_type executors sourceType) := by
  by_cases hm : executors.filter (fun kv => (sourceType.value ++ ":").toList.isPrefixOf kv.1.toList) = []
  · constructor
    · simp only [run_loaders_by_type]
      rw [if_pos hm, hm]
      rfl
    · intro kv hmem hpre
      have hmemf : kv ∈ executors.filter
          (fun kv => (sourceType.value ++ ":").toList.isPrefixOf kv.1.toList) :=
        List.mem_filter.mpr ⟨hmem, hpre⟩
      rw [hm] at hmemf
      simp at hmemf
  · constructor
    · simp only [run_loaders_by_type, if_neg hm]
      rw [List.map_map]
      rfl
    · intro kv hmem hpre
      have hmemf : kv ∈ executors.filter
          (fun kv => (sourceType.value ++ ":").toList.isPrefixOf kv.1.toList) :=
        List.mem_filter.mpr ⟨hmem, hpre⟩
      constructor
      · intro hsome
        simp only [run_loaders_by_type, if_neg hm]
        cases he : kv.2.err with
        | none => rw [he] at hsome; simp at hsome
        | some e => exact List.mem_map.mpr ⟨kv, hmemf, by simp [he]⟩
      · intro hnone
        simp only [run_loaders_by_type, if_neg hm]
        exact List.mem_map.mpr ⟨kv, hmemf, by simp [hnone]⟩

/-- Claim C10 witness: on a registry whose slack executors both fail,
`run_by_type` still returns normally with the failed key mapped to the
empty list. -/
theorem run_loaders_by_type_never_raises_witness :
    (("slack:a", ([] : List Document)) ∈ run_loaders_by_type regC10 .slack) ∧
    ((run_loaders_by_type regC10 .slack).map (fun kv => kv.1) =
      (regC10.filter (fun kv => (SourceType.slack.value ++ ":").toList.isPrefixOf kv.1.toList)).map
        (fun kv => kv.1)) :=
  ⟨((run_loaders_by_type_never_raises regC10 .slack).2 ("slack:a", outC10a)
      (by decide) (by decide)).1 (by decide),
    (run_loaders_by_type_never_raises regC10 .slack).1⟩
